import Mathlib

/- Verification of the channel-combinator library in DoryGuy/Concurrency-In-Go.

   Shallow embedding conventions, shared by every combinator below:

   * A stream (a unidirectional Go channel together with the goroutine that
     writes it) is embedded as the finite list of values it yields before the
     writer closes it.  A value of the untyped element type is embedded as
     the inductive type Val; Val.vnil is the zero value of the interface
     type, which is what a receive from a closed channel returns.
   * The cancellation signal (the done channel) is embedded as a value
     cancelAt of type Option Nat: some c means the worker observes done as
     closed at its select number c, counted from 0, so its first c selects
     take the data branch; none means done never fires.
   * Nondeterministic select choices between simultaneously ready data
     branches are resolved by an explicit oracle argument (a function out of
     Nat), universally quantified in every theorem that involves one, so the
     theorems hold for every schedule.
   * A worker that can never terminate is embedded by returning none (for
     the whole result) or a false "closes" flag, as documented at each use.

   The repository holds two near-identical packages: package utils
   (src/utils/channelUtils.go and src/unnamed/part_001) and package
   utils_generics (src/unnamed/part_000).  Namespace Utils embeds the first,
   namespace UG the second.  The two source texts of package utils agree
   function-for-function (channelUtils.go names two functions RepeatValue
   and RepeatFn where part_001 names them RepeatValueChannel and
   RepeatFnChannel, with identical bodies); the embedding uses the
   part_001 names. -/

/-- An element of the untyped stream type used throughout the library.
vnil embeds the nil interface value, which is both the zero value produced
by receiving from a closed channel and a value a caller may send. -/
inductive Val where
  | vnil : Val
  | vint (n : Int) : Val
  | vbool (b : Bool) : Val
deriving Repr, DecidableEq

/-- The two-output select at the heart of TeeChannel: given the
availability flags of out1 and out2 (false once the corresponding shadowed
variable has been set to nil) and the oracle choice used when both are
ready, it returns which output (if any) receives the value and the updated
availability flags.  This models one iteration of the select statement in
the body of TeeChannel with the done branch not taken. -/
def teeSelect (choose1 : Bool) (a : Bool × Bool) : (Bool × Bool) × (Bool × Bool) :=
  match a with
  | (true, true) =>
      if choose1 then ((true, false), (false, true)) else ((false, true), (true, false))
  | (true, false) => ((true, false), (false, false))
  | (false, true) => ((false, true), (false, false))
  | (false, false) => ((false, false), (false, false))

/-- The two iterations of the inner delivery loop of TeeChannel for one
value, starting with both outputs available; returns which outputs received
the value. -/
def teeElem (choose1 : Bool) : Bool × Bool :=
  let r1 := teeSelect choose1 (true, true)
  let r2 := teeSelect choose1 r1.2
  (r1.1.1 || r2.1.1, r1.1.2 || r2.1.2)

/-- Prepend v when the flag says the output received it. -/
def condCons (b : Bool) (v : Val) (l : List Val) : List Val :=
  if b then v :: l else l

/-- The earlier of two optional fire times; none means never fires.
This models the select in OrChannel: its output closes as soon as the
first of the selected channels closes. -/
def fireMin : Option Nat → Option Nat → Option Nat
  | none, b => b
  | a, none => a
  | some x, some y => some (min x y)

/-- Indices of the input channels of FanInChannel whose multiplex worker
still has a value ready to move: exactly the inputs whose remaining list is
nonempty. -/
def readyIdxs (rem : List (List Val)) : List Nat :=
  (List.range rem.length).filter (fun i => !(rem.getD i []).isEmpty)

/-- Total number of values still to be moved by FanInChannel. -/
def totalLen : List (List Val) → Nat
  | [] => 0
  | l :: rest => l.length + totalLen rest

/-- The multiset union of the values held in a family of streams. -/
def msum : List (List Val) → Multiset Val
  | [] => 0
  | l :: rest => (l : Multiset Val) + msum rest

/-- Which ready input the runtime scheduler lets send at a given step of
FanInChannel; none when no input is ready (then all are exhausted). -/
def pickReady (sched : Nat → Nat) (step : Nat) (rem : List (List Val)) : Option Nat :=
  match readyIdxs rem with
  | [] => none
  | j :: js => some ((j :: js).getD (sched step % (j :: js).length) 0)

/-- The infinite round-robin sequence over a value list, cut at c
emissions: emission n is element n mod length.  Used to state what
RepeatValueChannel emits. -/
def roundRobin (orig : List Val) (c : Nat) : List Val :=
  (List.range c).map (fun n => orig.getD (n % orig.length) Val.vnil)

/-- The source list followed by the nil values that further receives return
once the source channel is closed, cut to n elements.  Used to state what
TakeChannel emits. -/
def padTake (src : List Val) (n : Nat) : List Val :=
  src.take n ++ List.replicate (n - src.length) Val.vnil

/-- The two output streams of a Tee combinator together with whether each
was closed when the worker returned. -/
structure TeeOut where
  out1 : List Val
  out2 : List Val
  closed1 : Bool
  closed2 : Bool
deriving Repr, DecidableEq

namespace UG

/- Embedding of package utils_generics (src/unnamed/part_000). -/

/-- OrChannel (part_000 lines 25-53), embedded at the level of fire times:
a signal is its optional fire time.  Zero channels: the function returns a
nil channel, a receive from which blocks forever, so the result never
fires (none).  One channel: returned unchanged.  Two: a select between
them, firing at the earlier fire time.  More: a select among the first
three and the recursive merge of the rest with orDone itself appended; the
appended orDone only closes when this very select finishes, so it
contributes no independent firing and is embedded as the never-firing
signal none. -/
def OrChannel : List (Option Nat) → Option Nat
  | [] => none
  | [c] => c
  | [c1, c2] => fireMin c1 c2
  | c1 :: c2 :: c3 :: rest =>
      fireMin c1 (fireMin c2 (fireMin c3 (OrChannel (rest ++ [none]))))
termination_by l => l.length
decreasing_by
  simp only [List.length_append, List.length_cons, List.length_nil]
  omega

/-- Number of goroutines OrChannel spawns for a given number of input
channels: none for zero or one input (those cases return before the go
statement), one for two or three inputs, and one plus the recursive count
on len - 2 channels otherwise (channels 3 and later plus orDone). -/
def orWorkers : Nat → Nat
  | 0 => 0
  | 1 => 0
  | 2 => 1
  | n + 3 => 1 + orWorkers (n + 1)

/-- One round of RepeatValueChannel (part_000 lines 57-72): the remaining
suffix of the current range pass is the first argument; when it is
exhausted the outer for loop restarts the range pass from orig.  The Nat
argument counts the selects executed before done is observed; the final
select takes the done branch and the worker returns.  Callers guarantee
orig is nonempty; the inner nil pattern is unreachable then. -/
def repeatValueGo (orig : List Val) : List Val → Nat → List Val
  | _, 0 => []
  | [], Nat.succ c =>
      match orig with
      | [] => []
      | v :: vs => v :: repeatValueGo orig vs c
  | v :: vs, Nat.succ c => v :: repeatValueGo orig vs c

/-- RepeatValueChannel (part_000 lines 57-72).  cancelAt is the number of
sends completed before the worker observes done.  With an empty value
list the inner range loop has no iterations, so the outer for loop spins
forever without ever reaching a select: the worker never returns, the
deferred close never runs, and the stream never closes; this is embedded
as none.  With a nonempty list the worker emits cancelAt values and then
closes, embedded as some of the emitted list. -/
def RepeatValueChannel (values : List Val) (cancelAt : Nat) : Option (List Val) :=
  match values with
  | [] => none
  | v :: vs => some (repeatValueGo (v :: vs) (v :: vs) cancelAt)

/-- The sequence of returns of the impure argument function of
RepeatFnChannel, by call number. -/
def repeatFnGo (fn : Nat → Val) : Nat → Nat → List Val
  | _, 0 => []
  | i, Nat.succ c => fn i :: repeatFnGo fn (i + 1) c

/-- RepeatFnChannel (part_000 lines 76-89): calls fn once per emission
until done is observed at select number cancelAt, then closes. -/
def RepeatFnChannel (fn : Nat → Val) (cancelAt : Nat) : List Val :=
  repeatFnGo fn 0 cancelAt

/-- The loop of TakeChannel (part_000 lines 93-106).  The select evaluates
the receive from valueStream on entry, before committing to a branch, so
each iteration first takes one value from the source: the head when the
source still has values, and vnil (the zero value a closed channel
returns) once the source is closed.  The first argument is the remaining
done countdown, the Nat the remaining iterations of the for loop. -/
def takeLoop : Option Nat → List Val → Nat → List Val
  | _, _, 0 => []
  | some 0, _, Nat.succ _ => []
  | some (Nat.succ d), src, Nat.succ r =>
      src.headD Val.vnil :: takeLoop (some d) src.tail r
  | none, src, Nat.succ r =>
      src.headD Val.vnil :: takeLoop none src.tail r

/-- TakeChannel (part_000 lines 93-106).  num is the Go int argument; the
for loop runs num.toNat iterations (none when num is negative). -/
def TakeChannel (cancelAt : Option Nat) (src : List Val) (num : Int) : List Val :=
  takeLoop cancelAt src num.toNat

/-- OrDoneChannel (part_000 lines 112-132): relays the source until done
is observed at iteration cancelAt or the source closes, whichever comes
first. -/
def OrDoneChannel : Option Nat → List Val → List Val
  | some 0, _ => []
  | _, [] => []
  | some (Nat.succ c), v :: rest => v :: OrDoneChannel (some c) rest
  | none, v :: rest => v :: OrDoneChannel none rest

/-- The merged loop of the FanInChannel multiplex workers (part_000 lines
138-165), with done never fired: at each step the runtime scheduler picks
one input that still has a value ready and its worker moves that value to
the shared output; the shared output closes only after every input is
exhausted (the WaitGroup join).  fuel bounds the number of steps; one
value moves per step, so totalLen of the inputs is exactly enough. -/
def fanInGo (sched : Nat → Nat) : Nat → Nat → List (List Val) → List Val
  | 0, _, _ => []
  | Nat.succ fuel, step, rem =>
      match pickReady sched step rem with
      | none => []
      | some i =>
          match rem.getD i [] with
          | [] => []
          | v :: t => v :: fanInGo sched fuel (step + 1) (rem.set i t)

/-- FanInChannel (part_000 lines 138-165) under no cancellation, as a
function of the scheduler choices. -/
def FanInChannel (sched : Nat → Nat) (inputs : List (List Val)) : List Val :=
  fanInGo sched (totalLen inputs) 0 inputs

/-- The worker of TeeChannel (part_000 lines 170-193).  The outer loop
ranges over OrDoneChannel of the input, so the done countdown truncates
the input exactly like OrDoneChannel does; for each value the inner
two-iteration loop delivers it to both outputs (teeElem), with the oracle
resolving which of the two simultaneously ready sends goes first.  Every
return path runs the deferred function that closes both outputs, so each
base case closes both. -/
def teeGo (oracle : Nat → Bool) : Option Nat → Nat → List Val → TeeOut
  | _, _, [] => ⟨[], [], true, true⟩
  | some 0, _, _ :: _ => ⟨[], [], true, true⟩
  | some (Nat.succ c), n, v :: rest =>
      let d := teeElem (oracle n)
      let r := teeGo oracle (some c) (n + 1) rest
      ⟨condCons d.1 v r.out1, condCons d.2 v r.out2, r.closed1, r.closed2⟩
  | none, n, v :: rest =>
      let d := teeElem (oracle n)
      let r := teeGo oracle none (n + 1) rest
      ⟨condCons d.1 v r.out1, condCons d.2 v r.out2, r.closed1, r.closed2⟩

/-- TeeChannel (part_000 lines 170-193). -/
def TeeChannel (cancelAt : Option Nat) (oracle : Nat → Bool) (src : List Val) : TeeOut :=
  teeGo oracle cancelAt 0 src

/-- BridgeChannel (part_000 lines 197-223) under no cancellation: pull the
next inner stream from the outer stream, drain it through OrDoneChannel,
forward every value, and repeat until the outer stream closes. -/
def BridgeChannel : List (List Val) → List Val
  | [] => []
  | s :: rest => OrDoneChannel none s ++ BridgeChannel rest

/-- GeneratorToChannel (part_000 lines 228-241): emits each slice element
in order until done is observed, then closes.  The output channel is
buffered to the slice length, which affects timing only, not the emitted
sequence. -/
def GeneratorToChannel : Option Nat → List Val → List Val
  | some 0, _ :: _ => []
  | _, [] => []
  | some (Nat.succ c), v :: rest => v :: GeneratorToChannel (some c) rest
  | none, v :: rest => v :: GeneratorToChannel none rest

/-- The relay loop of BufferChannel once the buffered output channel has
been constructed: forwards every value of the OrDone-truncated input. -/
def bufferGo : List Val → List Val
  | [] => []
  | v :: rest => v :: bufferGo rest

/-- BufferChannel (part_000 lines 264-284).  The only call-time failure in
the function is the construction of the buffered channel: make with a
negative capacity panics in the caller before the worker starts, embedded
as none.  Any capacity of at least zero constructs the channel (zero gives
an unbuffered channel) and the call returns the relay stream. -/
def BufferChannel (cancelAt : Option Nat) (src : List Val) (limit : Int) :
    Option (List Val) :=
  if limit < 0 then none
  else some (bufferGo (OrDoneChannel cancelAt src))

/-- ToTChannel (part_000 lines 287-300).  The type assertion to the target
type T is embedded by the cast function, returning some on values whose
runtime representation matches T and none otherwise.  The assertion is
evaluated on entering the select, before any branch is committed, so a
mismatch stops the worker with a runtime panic at that element; the Bool
of the result records whether the worker panicked. -/
def ToTChannel {T : Type} (cast : Val → Option T) :
    Option Nat → List Val → List T × Bool
  | _, [] => ([], false)
  | d, v :: rest =>
      match cast v with
      | none => ([], true)
      | some t =>
          match d with
          | some 0 => ([], false)
          | some (Nat.succ k) =>
              let r := ToTChannel cast (some k) rest
              (t :: r.1, r.2)
          | none =>
              let r := ToTChannel cast none rest
              (t :: r.1, r.2)

end UG

namespace Utils

/- Embedding of package utils (src/utils/channelUtils.go and
   src/unnamed/part_001).  The combinator bodies in this package are
   textually identical to the ones in package utils_generics, and the
   embeddings below are correspondingly identical to the ones in namespace
   UG; the point of keeping both is to make that equivalence a theorem. -/

/-- OrChannel (channelUtils.go lines 15-43, part_001 lines 25-53),
embedded at the level of fire times exactly as UG.OrChannel. -/
def OrChannel : List (Option Nat) → Option Nat
  | [] => none
  | [c] => c
  | [c1, c2] => fireMin c1 c2
  | c1 :: c2 :: c3 :: rest =>
      fireMin c1 (fireMin c2 (fireMin c3 (OrChannel (rest ++ [none]))))
termination_by l => l.length
decreasing_by
  simp only [List.length_append, List.length_cons, List.length_nil]
  omega

/-- One range pass of RepeatValueChannel (part_001 lines 57-72; the same
function is RepeatValue in channelUtils.go lines 47-62). -/
def repeatValueGo (orig : List Val) : List Val → Nat → List Val
  | _, 0 => []
  | [], Nat.succ c =>
      match orig with
      | [] => []
      | v :: vs => v :: repeatValueGo orig vs c
  | v :: vs, Nat.succ c => v :: repeatValueGo orig vs c

/-- RepeatValueChannel (part_001 lines 57-72; RepeatValue in
channelUtils.go lines 47-62), embedded exactly as UG.RepeatValueChannel. -/
def RepeatValueChannel (values : List Val) (cancelAt : Nat) : Option (List Val) :=
  match values with
  | [] => none
  | v :: vs => some (repeatValueGo (v :: vs) (v :: vs) cancelAt)

/-- Call returns of the impure function argument of RepeatFnChannel. -/
def repeatFnGo (fn : Nat → Val) : Nat → Nat → List Val
  | _, 0 => []
  | i, Nat.succ c => fn i :: repeatFnGo fn (i + 1) c

/-- RepeatFnChannel (part_001 lines 76-89; RepeatFn in channelUtils.go
lines 66-79). -/
def RepeatFnChannel (fn : Nat → Val) (cancelAt : Nat) : List Val :=
  repeatFnGo fn 0 cancelAt

/-- The loop of TakeChannel (channelUtils.go lines 83-96, part_001 lines
93-106), embedded exactly as UG.takeLoop. -/
def takeLoop : Option Nat → List Val → Nat → List Val
  | _, _, 0 => []
  | some 0, _, Nat.succ _ => []
  | some (Nat.succ d), src, Nat.succ r =>
      src.headD Val.vnil :: takeLoop (some d) src.tail r
  | none, src, Nat.succ r =>
      src.headD Val.vnil :: takeLoop none src.tail r

/-- TakeChannel (channelUtils.go lines 83-96, part_001 lines 93-106). -/
def TakeChannel (cancelAt : Option Nat) (src : List Val) (num : Int) : List Val :=
  takeLoop cancelAt src num.toNat

/-- The call-time outcome of TakeChannel: the function body performs no
validation of num and constructs only an unbuffered channel, which cannot
fail, so a call always returns a stream (some); there is no code path that
rejects an argument when the function is called. -/
def TakeChannelCall (cancelAt : Option Nat) (src : List Val) (num : Int) :
    Option (List Val) :=
  some (TakeChannel cancelAt src num)

/-- OrDoneChannel (channelUtils.go lines 100-120, part_001 lines
112-132). -/
def OrDoneChannel : Option Nat → List Val → List Val
  | some 0, _ => []
  | _, [] => []
  | some (Nat.succ c), v :: rest => v :: OrDoneChannel (some c) rest
  | none, v :: rest => v :: OrDoneChannel none rest

/-- The merged multiplex loop of FanInChannel (channelUtils.go lines
124-151, part_001 lines 138-165), embedded exactly as UG.fanInGo. -/
def fanInGo (sched : Nat → Nat) : Nat → Nat → List (List Val) → List Val
  | 0, _, _ => []
  | Nat.succ fuel, step, rem =>
      match pickReady sched step rem with
      | none => []
      | some i =>
          match rem.getD i [] with
          | [] => []
          | v :: t => v :: fanInGo sched fuel (step + 1) (rem.set i t)

/-- FanInChannel (channelUtils.go lines 124-151, part_001 lines 138-165)
under no cancellation. -/
def FanInChannel (sched : Nat → Nat) (inputs : List (List Val)) : List Val :=
  fanInGo sched (totalLen inputs) 0 inputs

/-- The worker of TeeChannel (channelUtils.go lines 155-178, part_001
lines 170-193), embedded exactly as UG.teeGo. -/
def teeGo (oracle : Nat → Bool) : Option Nat → Nat → List Val → TeeOut
  | _, _, [] => ⟨[], [], true, true⟩
  | some 0, _, _ :: _ => ⟨[], [], true, true⟩
  | some (Nat.succ c), n, v :: rest =>
      let d := teeElem (oracle n)
      let r := teeGo oracle (some c) (n + 1) rest
      ⟨condCons d.1 v r.out1, condCons d.2 v r.out2, r.closed1, r.closed2⟩
  | none, n, v :: rest =>
      let d := teeElem (oracle n)
      let r := teeGo oracle none (n + 1) rest
      ⟨condCons d.1 v r.out1, condCons d.2 v r.out2, r.closed1, r.closed2⟩

/-- TeeChannel (channelUtils.go lines 155-178, part_001 lines 170-193). -/
def TeeChannel (cancelAt : Option Nat) (oracle : Nat → Bool) (src : List Val) : TeeOut :=
  teeGo oracle cancelAt 0 src

/-- BridgeChannel (channelUtils.go lines 182-208, part_001 lines 197-223)
under no cancellation. -/
def BridgeChannel : List (List Val) → List Val
  | [] => []
  | s :: rest => OrDoneChannel none s ++ BridgeChannel rest

/-- GeneratorToChannel (part_001 lines 228-241). -/
def GeneratorToChannel : Option Nat → List Val → List Val
  | some 0, _ :: _ => []
  | _, [] => []
  | some (Nat.succ c), v :: rest => v :: GeneratorToChannel (some c) rest
  | none, v :: rest => v :: GeneratorToChannel none rest

/-- The loop of ThrottleChannel once its channels are constructed, for a
given token-channel capacity.  With capacity zero the unconditional send
into the token channel at the top of the loop body blocks forever (the
only receive from that channel runs later in the same goroutine), so on a
nonempty truncated input the worker hangs before any emission and the
output never closes: the Bool records whether the output stream was
closed.  With a positive capacity the token channel holds at most one
token at a time, the send never blocks, and every value of the truncated
input is forwarded. -/
def throttleGo (limit : Nat) : List Val → List Val × Bool
  | [] => ([], true)
  | v :: rest =>
      if limit = 0 then ([], false)
      else
        let r := throttleGo limit rest
        (v :: r.1, r.2)

/-- ThrottleChannel (part_001 lines 264-289).  The only call-time failure
is the construction of the token channel: make with a negative capacity
panics in the caller before the worker starts, embedded as none.  With a
capacity of at least zero the call returns, and the worker behaves as
throttleGo on the OrDone-truncated input. -/
def ThrottleChannel (cancelAt : Option Nat) (src : List Val) (limit : Int) :
    Option (List Val × Bool) :=
  if limit < 0 then none
  else some (throttleGo limit.toNat (OrDoneChannel cancelAt src))

/-- ToIntChannel (part_001 lines 359-372).  The type assertion v.(int) is
evaluated on entering the select, so a value that does not carry an int
panics the worker at that element; the Bool records whether the worker
panicked. -/
def ToIntChannel : Option Nat → List Val → List Int × Bool
  | _, [] => ([], false)
  | d, v :: rest =>
      match v with
      | Val.vint n =>
          match d with
          | some 0 => ([], false)
          | some (Nat.succ k) =>
              let r := ToIntChannel (some k) rest
              (n :: r.1, r.2)
          | none =>
              let r := ToIntChannel none rest
              (n :: r.1, r.2)
      | _ => ([], true)

end Utils

/-- The type assertion of the Go expression v.(int): succeeds exactly on
integer-carrying values. -/
def castInt : Val → Option Int
  | Val.vint n => some n
  | _ => none

/- Helper lemmas: equivalence of the two package embeddings. -/

/-- The two OrChannel embeddings agree on every input list. -/
theorem orChannel_eqv (l : List (Option Nat)) : Utils.OrChannel l = UG.OrChannel l := by
  induction l using Utils.OrChannel.induct with
  | _ => simp [Utils.OrChannel, UG.OrChannel, *]

/-- The two repeatValueGo embeddings agree. -/
theorem repeatValueGo_eqv (orig l : List Val) (c : Nat) :
    Utils.repeatValueGo orig l c = UG.repeatValueGo orig l c := by
  induction l, c using Utils.repeatValueGo.induct orig with
  | case1 => simp [Utils.repeatValueGo, UG.repeatValueGo]
  | case2 c h => simp [Utils.repeatValueGo, UG.repeatValueGo, h]
  | case3 c v vs h ih =>
      subst h
      simp [Utils.repeatValueGo, UG.repeatValueGo, ih]
  | case4 v vs c ih => simp [Utils.repeatValueGo, UG.repeatValueGo, ih]

/-- The two RepeatValueChannel embeddings agree. -/
theorem repeatValue_eqv (values : List Val) (c : Nat) :
    Utils.RepeatValueChannel values c = UG.RepeatValueChannel values c := by
  cases values with
  | nil => rfl
  | cons v vs =>
      simp [Utils.RepeatValueChannel, UG.RepeatValueChannel, repeatValueGo_eqv]

/-- The two repeatFnGo embeddings agree. -/
theorem repeatFnGo_eqv (fn : Nat → Val) (i c : Nat) :
    Utils.repeatFnGo fn i c = UG.repeatFnGo fn i c := by
  induction c generalizing i with
  | zero => rfl
  | succ c ih => simp [Utils.repeatFnGo, UG.repeatFnGo, ih]

/-- The two takeLoop embeddings agree. -/
theorem takeLoop_eqv (d : Option Nat) (src : List Val) (r : Nat) :
    Utils.takeLoop d src r = UG.takeLoop d src r := by
  induction d, src, r using Utils.takeLoop.induct with
  | _ => simp [Utils.takeLoop, UG.takeLoop, *]

/-- The two OrDoneChannel embeddings agree. -/
theorem orDone_eqv (d : Option Nat) (src : List Val) :
    Utils.OrDoneChannel d src = UG.OrDoneChannel d src := by
  induction d, src using Utils.OrDoneChannel.induct with
  | _ => simp [Utils.OrDoneChannel, UG.OrDoneChannel, *]

/-- The two fanInGo embeddings agree. -/
theorem fanInGo_eqv (sched : Nat → Nat) (fuel step : Nat) (rem : List (List Val)) :
    Utils.fanInGo sched fuel step rem = UG.fanInGo sched fuel step rem := by
  induction fuel, step, rem using Utils.fanInGo.induct sched with
  | case1 step rem => rfl
  | case2 fuel step rem hp => simp [Utils.fanInGo, UG.fanInGo, hp]
  | case3 fuel step rem i hp hg =>
      simp only [Utils.fanInGo, UG.fanInGo, hp]
      simp only [hg]
  | case4 fuel step rem i hp v t hg ih =>
      simp only [Utils.fanInGo, UG.fanInGo, hp]
      simp only [hg, ih]

/-- The two teeGo embeddings agree. -/
theorem teeGo_eqv (oracle : Nat → Bool) (d : Option Nat) (n : Nat) (src : List Val) :
    Utils.teeGo oracle d n src = UG.teeGo oracle d n src := by
  induction d, n, src using Utils.teeGo.induct oracle with
  | _ => simp [Utils.teeGo, UG.teeGo, *]

/-- The two BridgeChannel embeddings agree. -/
theorem bridge_eqv (ss : List (List Val)) :
    Utils.BridgeChannel ss = UG.BridgeChannel ss := by
  induction ss with
  | nil => rfl
  | cons s rest ih => simp [Utils.BridgeChannel, UG.BridgeChannel, ih, orDone_eqv]

/-- The two GeneratorToChannel embeddings agree. -/
theorem generator_eqv (d : Option Nat) (src : List Val) :
    Utils.GeneratorToChannel d src = UG.GeneratorToChannel d src := by
  induction d, src using Utils.GeneratorToChannel.induct with
  | _ => simp [Utils.GeneratorToChannel, UG.GeneratorToChannel, *]

/- Helper lemmas: characterizations of the combinator loops. -/

/-- padTake of zero is empty. -/
theorem padTake_zero (src : List Val) : padTake src 0 = [] := by
  simp [padTake]

/-- padTake unfolds one head element, which is the source head when the
source still has values and vnil once it is exhausted. -/
theorem padTake_succ (src : List Val) (m : Nat) :
    padTake src (m + 1) = src.headD Val.vnil :: padTake src.tail m := by
  cases src with
  | nil => simp [padTake, List.replicate_succ]
  | cons v t => simp [padTake, Nat.succ_sub_succ]

/-- The take loop emits exactly the nil-padded source, cut at the for
bound or at the done observation point, whichever is smaller. -/
theorem takeLoop_padTake :
    ∀ (r : Nat) (d : Option Nat) (src : List Val),
      UG.takeLoop d src r = padTake src (min r (d.getD r)) := by
  intro r
  induction r with
  | zero => intro d src; simp [UG.takeLoop, padTake_zero]
  | succ r ih =>
      intro d src
      match d with
      | none =>
          simp only [UG.takeLoop, Option.getD_none, Nat.min_self, padTake_succ]
          rw [ih none src.tail]
          simp
      | some 0 =>
          simp [UG.takeLoop, padTake_zero]
      | some (Nat.succ k) =>
          simp only [UG.takeLoop, Option.getD_some, Nat.succ_min_succ, padTake_succ]
          rw [ih (some k) src.tail]
          simp

/-- The repeat-value loop started at drop k of a nonempty list emits the
round-robin sequence shifted by k. -/
theorem rvGo_roundRobin (v0 : Val) (vs0 : List Val) :
    ∀ (c k : Nat), k ≤ (v0 :: vs0).length →
      UG.repeatValueGo (v0 :: vs0) ((v0 :: vs0).drop k) c
        = (List.range c).map
            (fun n => (v0 :: vs0).getD ((k + n) % (v0 :: vs0).length) Val.vnil) := by
  intro c
  induction c with
  | zero => intro k hk; simp [UG.repeatValueGo]
  | succ c ih =>
      intro k hk
      rcases Nat.lt_or_ge k (v0 :: vs0).length with hlt | hge
      · rw [List.drop_eq_getElem_cons hlt]
        simp only [UG.repeatValueGo]
        rw [ih (k + 1) hlt]
        rw [List.range_succ_eq_map, List.map_cons, List.map_map]
        congr 1
        · rw [Nat.add_zero, Nat.mod_eq_of_lt hlt, List.getD_eq_getElem _ _ hlt]
        · congr 1
          funext n
          simp only [Function.comp]
          congr 2
          omega
      · have hk2 : k = (v0 :: vs0).length := le_antisymm hk hge
        subst hk2
        rw [List.drop_length]
        simp only [UG.repeatValueGo]
        have h1 : (1 : Nat) ≤ (v0 :: vs0).length := by simp
        have ihh := ih 1 h1
        rw [show List.drop 1 (v0 :: vs0) = vs0 from rfl] at ihh
        rw [ihh]
        rw [List.range_succ_eq_map, List.map_cons, List.map_map]
        congr 1
        · simp [Nat.mod_self]
        · congr 1
          funext n
          simp only [Function.comp]
          have hmod : ((v0 :: vs0).length + Nat.succ n) % (v0 :: vs0).length
              = (1 + n) % (v0 :: vs0).length := by
            rw [Nat.add_mod_left, Nat.add_comm 1 n]
          rw [hmod]

/-- OrDoneChannel with a never-firing done is the identity relay. -/
theorem orDone_none (s : List Val) : UG.OrDoneChannel none s = s := by
  induction s with
  | nil => rfl
  | cons v rest ih => simp [UG.OrDoneChannel, ih]

/-- The inner two-iteration delivery loop of Tee delivers the value to
both outputs, whichever of the two simultaneously ready sends the runtime
picks first. -/
theorem teeElem_both (b : Bool) : teeElem b = (true, true) := by
  cases b <;> rfl

/-- The Tee worker under a never-firing done copies the source to both
outputs and closes both. -/
theorem teeGo_none (oracle : Nat → Bool) (src : List Val) :
    ∀ n, UG.teeGo oracle none n src = ⟨src, src, true, true⟩ := by
  induction src with
  | nil => intro n; rfl
  | cons v rest ih =>
      intro n
      simp [UG.teeGo, teeElem_both, condCons, ih]

/-- Every return path of the Tee worker closes both outputs. -/
theorem teeGo_closed (oracle : Nat → Bool) :
    ∀ (d : Option Nat) (n : Nat) (src : List Val),
      (UG.teeGo oracle d n src).closed1 = true ∧
      (UG.teeGo oracle d n src).closed2 = true := by
  intro d n src
  induction d, n, src using UG.teeGo.induct oracle with
  | _ => simp [UG.teeGo, *]

/-- The buffer relay loop forwards its input unchanged. -/
theorem bufferGo_id (l : List Val) : UG.bufferGo l = l := by
  induction l with
  | nil => rfl
  | cons v rest ih => simp [UG.bufferGo, ih]

/- Helper lemmas: the FanIn join preserves the multiset of values. -/

/-- Membership in the ready-index list. -/
theorem mem_readyIdxs (rem : List (List Val)) (i : Nat) :
    i ∈ readyIdxs rem ↔ i < rem.length ∧ rem.getD i [] ≠ [] := by
  simp [readyIdxs, List.mem_filter, List.mem_range]

/-- When no input is ready every input is exhausted, so the multiset of
remaining values is empty. -/
theorem readyIdxs_nil_msum (rem : List (List Val)) (h : readyIdxs rem = []) :
    msum rem = 0 := by
  induction rem with
  | nil => rfl
  | cons r rs ih =>
      have h0 : r = [] := by
        by_contra hr
        have : (0 : Nat) ∈ readyIdxs (r :: rs) := by
          rw [mem_readyIdxs]
          exact ⟨by simp, by simpa using hr⟩
        rw [h] at this
        exact absurd this (List.not_mem_nil 0)
      have hrs : readyIdxs rs = [] := by
        rw [List.eq_nil_iff_forall_not_mem]
        intro i hi
        rw [mem_readyIdxs] at hi
        have : (i + 1) ∈ readyIdxs (r :: rs) := by
          rw [mem_readyIdxs]
          exact ⟨by simpa using hi.1, by simpa using hi.2⟩
        rw [h] at this
        exact absurd this (List.not_mem_nil (i + 1))
      subst h0
      rw [msum, ih hrs]
      rfl

/-- A family with no remaining values has an empty multiset. -/
theorem totalLen_zero_msum (rem : List (List Val)) (h : totalLen rem = 0) :
    msum rem = 0 := by
  induction rem with
  | nil => rfl
  | cons r rs ih =>
      rw [totalLen] at h
      have h1 : r = [] := List.length_eq_zero.mp (by omega)
      subst h1
      rw [msum, ih (by omega)]
      rfl

/-- No pick means no ready input. -/
theorem pickReady_none (sched : Nat → Nat) (step : Nat) (rem : List (List Val))
    (h : pickReady sched step rem = none) : readyIdxs rem = [] := by
  unfold pickReady at h
  cases hr : readyIdxs rem with
  | nil => rfl
  | cons j js => rw [hr] at h; cases h

/-- A picked index is a ready index. -/
theorem pickReady_mem (sched : Nat → Nat) (step : Nat) (rem : List (List Val)) (i : Nat)
    (h : pickReady sched step rem = some i) : i ∈ readyIdxs rem := by
  unfold pickReady at h
  cases hr : readyIdxs rem with
  | nil => rw [hr] at h; cases h
  | cons j js =>
      rw [hr] at h
      injection h with h
      subst h
      have hlen : sched step % (j :: js).length < (j :: js).length :=
        Nat.mod_lt _ (by simp)
      rw [List.getD_eq_getElem _ _ hlen]
      exact List.getElem_mem hlen

/-- Moving the head of one input out of the family removes exactly that
value from the family multiset. -/
theorem msum_set (rem : List (List Val)) :
    ∀ (i : Nat) (v : Val) (t : List Val), rem.getD i [] = v :: t →
      v ::ₘ msum (rem.set i t) = msum rem := by
  induction rem with
  | nil => intro i v t h; simp [List.getD] at h
  | cons r rs ih =>
      intro i v t h
      cases i with
      | zero =>
          rw [List.getD_cons_zero] at h
          subst h
          rw [List.set_cons_zero, msum, msum, ← Multiset.cons_coe, Multiset.cons_add]
      | succ i =>
          rw [List.getD_cons_succ] at h
          rw [List.set_cons_succ, msum, msum, ← ih i v t h]
          simp only [← Multiset.singleton_add]
          rw [add_left_comm]

/-- Moving the head of one input decreases the remaining count by one. -/
theorem totalLen_set (rem : List (List Val)) :
    ∀ (i : Nat) (v : Val) (t : List Val), rem.getD i [] = v :: t →
      totalLen (rem.set i t) + 1 = totalLen rem := by
  induction rem with
  | nil => intro i v t h; simp [List.getD] at h
  | cons r rs ih =>
      intro i v t h
      cases i with
      | zero =>
          rw [List.getD_cons_zero] at h
          subst h
          rw [List.set_cons_zero, totalLen, totalLen]
          simp
          omega
      | succ i =>
          rw [List.getD_cons_succ] at h
          rw [List.set_cons_succ, totalLen, totalLen]
          have hih := ih i v t h
          omega

/-- With enough fuel the fan-in loop moves every remaining value, for any
scheduler. -/
theorem fanInGo_msum (sched : Nat → Nat) :
    ∀ (fuel step : Nat) (rem : List (List Val)), totalLen rem ≤ fuel →
      (UG.fanInGo sched fuel step rem : Multiset Val) = msum rem := by
  intro fuel
  induction fuel with
  | zero =>
      intro step rem h
      rw [totalLen_zero_msum rem (Nat.le_zero.mp h)]
      rfl
  | succ fuel ih =>
      intro step rem h
      cases hp : pickReady sched step rem with
      | none =>
          simp only [UG.fanInGo, hp]
          rw [readyIdxs_nil_msum rem (pickReady_none sched step rem hp)]
          rfl
      | some i =>
          have hi := pickReady_mem sched step rem i hp
          rw [mem_readyIdxs] at hi
          cases hv : rem.getD i [] with
          | nil => exact absurd hv hi.2
          | cons v t =>
              simp only [UG.fanInGo, hp, hv]
              have hlen := totalLen_set rem i v t hv
              have hih := ih (step + 1) (rem.set i t) (by omega)
              rw [← Multiset.cons_coe, hih]
              exact msum_set rem i v t hv

/-- The count of the family multiset is the total remaining length. -/
theorem msum_card (rem : List (List Val)) :
    Multiset.card (msum rem) = totalLen rem := by
  induction rem with
  | nil => rfl
  | cons r rs ih => simp [msum, totalLen, ih]

/- Claim theorems. -/

/-- Claim C1, counterexample to the claim as stated: over the
single-element source carrying 7 with done never fired, TakeChannel with
bound 2 does not yield just the first min(2, 1) = 1 source element; the
select re-evaluates the receive after the source has closed and receives
the zero value, so the output is the two-element stream 7, nil. -/
theorem C1_counterexample : UG.TakeChannel none [Val.vint 7] 2 ≠ [Val.vint 7] := by
  decide

/-- Claim C1, amended: for every done observation point, source, and
bound, TakeChannel yields exactly min(num, d) elements of the nil-padded
source (the source elements in order, followed by nil zero values for the
receives that happen after the source closed), then closes; with num at
most the source length and no cancellation this is the first num source
elements, and num = 0 (or negative) gives zero emissions and an immediate
close. -/
theorem C1_take_padded (cancelAt : Option Nat) (src : List Val) (num : Int) :
    UG.TakeChannel cancelAt src num
      = padTake src (min num.toNat (cancelAt.getD num.toNat)) :=
  takeLoop_padTake num.toNat cancelAt src

/-- Claim C2, counterexample to the claim as stated: with an empty value
list RepeatValueChannel does not close immediately with zero emissions
(which would be some of the empty list); the worker spins in the outer for
loop without reaching a select, never observes done, and never closes the
stream (embedded as none), even when done is already closed at the start. -/
theorem C2_counterexample : UG.RepeatValueChannel [] 0 ≠ some [] := by
  decide

/-- Claim C2, amended: with an empty value list the output stream never
closes and nothing is emitted (the worker loops forever without observing
cancellation); with a nonempty list the worker emits the values round-robin
in list order, element n of the output being value n mod length, until
cancellation is observed after c emissions, and then closes. -/
theorem C2_repeat_semantics :
    (∀ c, UG.RepeatValueChannel [] c = none) ∧
    (∀ (v : Val) (vs : List Val) (c : Nat),
        UG.RepeatValueChannel (v :: vs) c = some (roundRobin (v :: vs) c)) := by
  constructor
  · intro c; rfl
  · intro v vs c
    have h := rvGo_roundRobin v vs c 0 (Nat.zero_le _)
    rw [List.drop_zero] at h
    simp only [UG.RepeatValueChannel, h, roundRobin, Nat.zero_add]

/-- Claim C3, counterexample to the claim as stated: a negative Take count
is not rejected at call time; the call returns a stream (some) that closes
with zero emissions.  A zero-capacity Buffer is also not rejected at call
time; the call returns a stream that relays the source. -/
theorem C3_counterexample :
    Utils.TakeChannelCall none [Val.vint 1] (-1) = some [] ∧
    UG.BufferChannel none [Val.vint 1] 0 = some [Val.vint 1] := by
  decide

/-- Claim C3, amended: no call validates its arguments.  A negative Take
count yields a normally returned stream that closes immediately with zero
emissions.  A zero-capacity Buffer is accepted and relays the truncated
source through an unbuffered channel.  Only a negative Buffer or Throttle
capacity fails at call time, via the runtime panic of constructing a
channel with negative capacity.  A zero-capacity Throttle is accepted at
call time and then hangs mid-stream before its first emission (its output
closes only when the truncated input is empty). -/
theorem C3_misuse_semantics :
    (∀ (cancelAt : Option Nat) (src : List Val) (num : Int), num < 0 →
        Utils.TakeChannelCall cancelAt src num = some []) ∧
    (∀ (cancelAt : Option Nat) (src : List Val),
        UG.BufferChannel cancelAt src 0 = some (UG.OrDoneChannel cancelAt src)) ∧
    (∀ (cancelAt : Option Nat) (src : List Val) (limit : Int), limit < 0 →
        UG.BufferChannel cancelAt src limit = none) ∧
    (∀ (cancelAt : Option Nat) (src : List Val) (limit : Int), limit < 0 →
        Utils.ThrottleChannel cancelAt src limit = none) ∧
    (∀ (cancelAt : Option Nat) (src : List Val),
        Utils.ThrottleChannel cancelAt src 0
          = some ([], (Utils.OrDoneChannel cancelAt src).isEmpty)) := by
  refine ⟨?_, ?_, ?_, ?_, ?_⟩
  · intro cancelAt src num hnum
    have h0 : num.toNat = 0 := Int.toNat_of_nonpos (le_of_lt hnum)
    simp [Utils.TakeChannelCall, Utils.TakeChannel, h0, Utils.takeLoop]
  · intro cancelAt src
    simp [UG.BufferChannel, bufferGo_id]
  · intro cancelAt src limit hlim
    simp [UG.BufferChannel, hlim]
  · intro cancelAt src limit hlim
    simp [Utils.ThrottleChannel, hlim]
  · intro cancelAt src
    simp only [Utils.ThrottleChannel]
    rw [if_neg (by omega)]
    cases h : Utils.OrDoneChannel cancelAt src with
    | nil => simp [Utils.throttleGo]
    | cons v rest => simp [Utils.throttleGo]

/-- Claim C3, witness: the amended theorem applied at concrete inputs. -/
theorem C3_misuse_semantics_witness :
    Utils.TakeChannelCall none [Val.vint 5] (-2) = some [] ∧
    UG.BufferChannel none [Val.vint 5] (-1) = none ∧
    Utils.ThrottleChannel none [Val.vint 5] (-3) = none :=
  ⟨C3_misuse_semantics.1 none [Val.vint 5] (-2) (by decide),
   C3_misuse_semantics.2.2.1 none [Val.vint 5] (-1) (by decide),
   C3_misuse_semantics.2.2.2.1 none [Val.vint 5] (-3) (by decide)⟩

/-- Claim C4: under no cancellation BridgeChannel yields exactly the
concatenation of the inner streams in outer order, each inner stream in
its own emission order; in particular ten single-element inner streams
carrying 0 to 9 yield exactly 0, 1, ..., 9. -/
theorem C4_bridge_order :
    (∀ ss : List (List Val), UG.BridgeChannel ss = ss.flatten) ∧
    UG.BridgeChannel ((List.range 10).map fun i => [Val.vint i])
      = (List.range 10).map fun i => Val.vint i := by
  constructor
  · intro ss
    induction ss with
    | nil => rfl
    | cons s rest ih => simp [UG.BridgeChannel, orDone_none, ih]
  · decide

/-- Claim C5: over any finite source with no cancellation and both outputs
drained, the two streams returned by TeeChannel each equal the source
(hence they have the source length and are element-by-element equal to
each other), for every resolution of the select races. -/
theorem C5_tee_duplicates (oracle : Nat → Bool) (src : List Val) :
    (UG.TeeChannel none oracle src).out1 = src ∧
    (UG.TeeChannel none oracle src).out2 = src := by
  rw [UG.TeeChannel, teeGo_none]
  exact ⟨rfl, rfl⟩

/-- Claim C6: typed extraction over a stream whose first elements all
match the target type, followed by one mismatching element, emits exactly
the correctly typed prefix (in order, one output per prefix element) and
then panics at the offending element; over a fully matching stream it
emits everything and terminates without panic, so it neither fails early
nor continues past the mismatch. -/
theorem C6_typed_extraction {T : Type} (cast : Val → Option T) (pre : List Val)
    (bad : Val) (rest : List Val)
    (h1 : ∀ v ∈ pre, (cast v).isSome = true) (h2 : cast bad = none) :
    UG.ToTChannel cast none (pre ++ bad :: rest) = (pre.filterMap cast, true) ∧
    UG.ToTChannel cast none pre = (pre.filterMap cast, false) ∧
    (pre.filterMap cast).length = pre.length := by
  induction pre with
  | nil => simp [UG.ToTChannel, h2]
  | cons v pre ih =>
      have hv : (cast v).isSome = true := h1 v (List.mem_cons_self v pre)
      obtain ⟨t, ht⟩ := Option.isSome_iff_exists.mp hv
      have ihh := ih (fun w hw => h1 w (List.mem_cons_of_mem v hw))
      simp [UG.ToTChannel, ht, ihh.1, ihh.2.1, ihh.2.2]

/-- Claim C6, witness: extraction to int over the stream 1, 2, nil, 3
emits 1, 2 and panics at the nil element; over 1, 2 alone it emits both
and closes cleanly. -/
theorem C6_typed_extraction_witness :
    UG.ToTChannel castInt none ([Val.vint 1, Val.vint 2] ++ Val.vnil :: [Val.vint 3])
      = ([1, 2], true) ∧
    UG.ToTChannel castInt none [Val.vint 1, Val.vint 2] = ([1, 2], false) ∧
    ([Val.vint 1, Val.vint 2].filterMap castInt).length = 2 :=
  C6_typed_extraction castInt [Val.vint 1, Val.vint 2] Val.vnil [Val.vint 3]
    (by decide) rfl

/-- Claim C7: OrChannel with zero inputs returns the nil channel, whose
fire time is none, so it never fires and remains unfired indefinitely (a
caller that blocks on it blocks forever); OrChannel with exactly one input
returns that input itself, and in both the zero- and one-input cases the
function returns before the go statement, spawning no worker. -/
theorem C7_or_edge_cases :
    UG.OrChannel [] = none ∧ (∀ c, UG.OrChannel [c] = c) ∧
    UG.orWorkers 0 = 0 ∧ UG.orWorkers 1 = 0 := by
  refine ⟨by simp [UG.OrChannel], fun c => by simp [UG.OrChannel], rfl, rfl⟩

/-- Claim C8: for every scheduler and every family of finite inputs with
no cancellation, FanInChannel yields a stream whose multiset of values is
exactly the multiset union of the inputs (so every value of every input is
delivered before the output closes, and the output length is the total
input length: the join closes only after all inputs are exhausted, not
after the first); zero inputs yield an immediate close. -/
theorem C8_fanIn_multiset :
    (∀ (sched : Nat → Nat) (inputs : List (List Val)),
        (UG.FanInChannel sched inputs : Multiset Val) = msum inputs ∧
        (UG.FanInChannel sched inputs).length = totalLen inputs) ∧
    (∀ sched : Nat → Nat, UG.FanInChannel sched [] = []) := by
  constructor
  · intro sched inputs
    have h := fanInGo_msum sched (totalLen inputs) 0 inputs (le_refl _)
    refine ⟨h, ?_⟩
    have hc := congrArg Multiset.card h
    rw [Multiset.coe_card, msum_card] at hc
    exact hc
  · intro sched; rfl

/-- Claim C9: every combinator defined in both package utils and package
utils_generics (Or, RepeatValue, RepeatFn, Take, OrDone, FanIn, Tee,
Bridge, and the slice generator) has behaviorally equal implementations:
with the same cancellation signal, schedule, and inputs, the embedded
output streams are equal functions. -/
theorem C9_packages_equivalent :
    Utils.OrChannel = UG.OrChannel ∧
    Utils.RepeatValueChannel = UG.RepeatValueChannel ∧
    Utils.RepeatFnChannel = UG.RepeatFnChannel ∧
    Utils.TakeChannel = UG.TakeChannel ∧
    Utils.OrDoneChannel = UG.OrDoneChannel ∧
    Utils.FanInChannel = UG.FanInChannel ∧
    Utils.TeeChannel = UG.TeeChannel ∧
    Utils.BridgeChannel = UG.BridgeChannel ∧
    Utils.GeneratorToChannel = UG.GeneratorToChannel := by
  refine ⟨?_, ?_, ?_, ?_, ?_, ?_, ?_, ?_, ?_⟩
  · funext l
    exact orChannel_eqv l
  · funext values c
    exact repeatValue_eqv values c
  · funext fn c
    exact repeatFnGo_eqv fn 0 c
  · funext d src num
    exact takeLoop_eqv d src num.toNat
  · funext d src
    exact orDone_eqv d src
  · funext sched inputs
    exact fanInGo_eqv sched (totalLen inputs) 0 inputs
  · funext d oracle src
    exact teeGo_eqv oracle d 0 src
  · funext ss
    exact bridge_eqv ss
  · funext d src
    exact generator_eqv d src

/-- Claim C10: whenever the Tee worker terminates, for every cancellation
point, select schedule, and source, both returned outputs are closed; it
is never the case that one output is closed while the other stays open. -/
theorem C10_tee_closes_both (cancelAt : Option Nat) (oracle : Nat → Bool)
    (src : List Val) :
    (UG.TeeChannel cancelAt oracle src).closed1 = true ∧
    (UG.TeeChannel cancelAt oracle src).closed2 = true :=
  teeGo_closed oracle cancelAt 0 src
